import Mathlib

/-!
SecureNotes API: the in-memory notes repository and the CreateNote handler.

A shallow embedding of `internal/models/note.go`,
`internal/repository/notes_repo.go` and of `CreateNote` in
`internal/handlers/notes.go`.

* The Go map `map[string]models.Note` is an association list with pairwise
  distinct keys (`AList`): `m[k]` is `lookup`, `m[k] = v` is `insert`,
  `delete(m, k)` is `erase`.
* Every method runs under the repository's lock from its first statement to its
  return, so a method is one function from the state before to the result and
  the state after; the lock itself has no counterpart here.
* `uuid.New().String()` and `time.Now()` are calls into the environment. The
  value each one returned is an argument of the method that made the call.
  What the libraries promise about these values (an identifier is never handed
  out twice; within one process a later reading of the clock does not compare
  as earlier) is stated as a hypothesis where a result over a sequence of
  calls needs it.
-/

namespace SecureNotes

/-! ## internal/models/note.go -/

/-- An instant as `time.Now()` reports it, on the scale Go compares two
`time.Time` values of one process by. -/
abbrev Time := Nat

/-- The struct `models.Note`. -/
structure Note where
  ID : String
  Title : String
  Content : String
  CreatedAt : Time
  UpdatedAt : Time
deriving DecidableEq, Repr

/-- The struct `models.CreateNoteRequest`; both fields are tagged
`binding:"required"`. -/
structure CreateNoteRequest where
  Title : String
  Content : String
deriving DecidableEq, Repr

/-- The struct `models.UpdateNoteRequest`; no field carries a binding tag. -/
structure UpdateNoteRequest where
  Title : String
  Content : String
deriving DecidableEq, Repr

/-- The struct `models.ErrorResponse`. -/
structure ErrorResponse where
  Error : String
  Message : String
deriving DecidableEq, Repr

/-! ## internal/repository/notes_repo.go -/

/-- The errors of the repository package: `ErrNoteNotFound` is its only one. -/
inductive RepoError where
  | ErrNoteNotFound
deriving DecidableEq, Repr

/-- The type of the field `notes`: `map[string]models.Note`. -/
abbrev NotesMap := AList (fun _ : String => Note)

/-- The struct `InMemoryNotesRepository` without its lock. -/
structure InMemoryNotesRepository where
  notes : NotesMap
deriving DecidableEq

/-- The constructor `NewInMemoryNotesRepository`: a repository over an empty map. -/
def NewInMemoryNotesRepository : InMemoryNotesRepository :=
  { notes := ∅ }

/-- The method `GetAll`: appends every value of the map to a fresh slice. Go leaves the
order of a map iteration open; here it is the order of the entries. -/
def GetAll (r : InMemoryNotesRepository) : List Note :=
  r.notes.entries.map (fun e => e.2)

/-- The method `GetByID`: the note under `id`, or `ErrNoteNotFound`. It writes nothing. -/
def GetByID (r : InMemoryNotesRepository) (id : String) : Except RepoError Note :=
  match r.notes.lookup id with
  | none => .error .ErrNoteNotFound
  | some note => .ok note

/-- The method `Create`: builds the note from the request, the identifier `uuid` that
`uuid.New().String()` returned and the instant `now` that `time.Now()` returned,
stores it under its ID and returns it. -/
def Create (r : InMemoryNotesRepository) (req : CreateNoteRequest) (uuid : String)
    (now : Time) : Note × InMemoryNotesRepository :=
  let note : Note :=
    { ID := uuid, Title := req.Title, Content := req.Content,
      CreatedAt := now, UpdatedAt := now }
  (note, { notes := r.notes.insert note.ID note })

/-- The method `Update`: `ErrNoteNotFound` when `id` is no key; otherwise overwrites the
title when the request's is not `""`, the content when the request's is not
`""`, sets `UpdatedAt` to the instant `now` that `time.Now()` returned, stores
the note back under `id` and returns it. -/
def Update (r : InMemoryNotesRepository) (id : String) (req : UpdateNoteRequest)
    (now : Time) : Except RepoError Note × InMemoryNotesRepository :=
  match r.notes.lookup id with
  | none => (.error .ErrNoteNotFound, r)
  | some note =>
    let note := if req.Title ≠ "" then { note with Title := req.Title } else note
    let note := if req.Content ≠ "" then { note with Content := req.Content } else note
    let note := { note with UpdatedAt := now }
    (.ok note, { notes := r.notes.insert id note })

/-- The method `Delete`: `ErrNoteNotFound` when `id` is no key; otherwise removes the key. -/
def Delete (r : InMemoryNotesRepository) (id : String) :
    Except RepoError Unit × InMemoryNotesRepository :=
  match r.notes.lookup id with
  | none => (.error .ErrNoteNotFound, r)
  | some _ => (.ok (), { notes := r.notes.erase id })

/-! ## Sequences of calls on one repository -/

/-- One call of a method of `NotesRepository`, together with what the
environment returned inside it (`uuid`, `now`). -/
inductive Call where
  | GetAll
  | GetByID (id : String)
  | Create (req : CreateNoteRequest) (uuid : String) (now : Time)
  | Update (id : String) (req : UpdateNoteRequest) (now : Time)
  | Delete (id : String)
deriving DecidableEq, Repr

/-- What a call returned to its caller. -/
inductive Outcome where
  | all (notes : List Note)
  | got (res : Except RepoError Note)
  | created (note : Note)
  | updated (res : Except RepoError Note)
  | deleted (res : Except RepoError Unit)

/-- Runs one call: its outcome and the repository after it. -/
def step (r : InMemoryNotesRepository) : Call → Outcome × InMemoryNotesRepository
  | .GetAll => (.all (GetAll r), r)
  | .GetByID id => (.got (GetByID r id), r)
  | .Create req uuid now => (.created (Create r req uuid now).1, (Create r req uuid now).2)
  | .Update id req now => (.updated (Update r id req now).1, (Update r id req now).2)
  | .Delete id => (.deleted (Delete r id).1, (Delete r id).2)

/-- Runs the calls one after the other: the outcomes in order and the
repository after the last call. -/
def run (r : InMemoryNotesRepository) : List Call → List Outcome × InMemoryNotesRepository
  | [] => ([], r)
  | c :: cs => ((step r c).1 :: (run (step r c).2 cs).1, (run (step r c).2 cs).2)

/-- The number of `Create` calls in a sequence. -/
def createCalls : List Call → Nat
  | [] => 0
  | .Create _ _ _ :: cs => createCalls cs + 1
  | _ :: cs => createCalls cs

/-- Whether an outcome is that of a `Delete` that returned a nil error. -/
def Outcome.isDeleted : Outcome → Bool
  | .deleted (.ok _) => true
  | _ => false

/-- The number of `Delete` calls that returned a nil error. -/
def succeededDeletes (os : List Outcome) : Nat :=
  os.countP Outcome.isDeleted

/-- The identifiers `uuid.New().String()` returned, in the order of the calls. -/
def generatedIDs : List Call → List String
  | [] => []
  | .Create _ uuid _ :: cs => uuid :: generatedIDs cs
  | _ :: cs => generatedIDs cs

/-- The instants `time.Now()` returned, in the order of the calls, when the
sequence runs from `r`: one for every `Create` and one for every `Update` that
finds its id (an `Update` that finds no note returns before reading the clock). -/
def clockReadings (r : InMemoryNotesRepository) : List Call → List Time
  | [] => []
  | .Create req uuid now :: cs => now :: clockReadings (Create r req uuid now).2 cs
  | .Update id req now :: cs =>
    if id ∈ r.notes then now :: clockReadings (Update r id req now).2 cs
    else clockReadings (Update r id req now).2 cs
  | .Delete id :: cs => clockReadings (Delete r id).2 cs
  | _ :: cs => clockReadings r cs

/-- Every `Create` call of the sequence carries a request whose title and
content are both non-empty. -/
def validCreates : List Call → Prop
  | [] => True
  | .Create req _ _ :: cs => req.Title ≠ "" ∧ req.Content ≠ "" ∧ validCreates cs
  | _ :: cs => validCreates cs

/-! ## internal/handlers/notes.go: CreateNote -/

/-- A member of the JSON object in a request body, as far as decoding it into a
Go `string` field tells members apart: not there, `null`, a JSON string, or a
value of another JSON type. -/
inductive JSONMember where
  | absent
  | null
  | str (s : String)
  | other
deriving DecidableEq, Repr

/-- A request body as `c.ShouldBindJSON` sees it: something that does not
decode as a JSON object, or an object with its `title` and `content` members. -/
inductive RequestBody where
  | malformed
  | object (title content : JSONMember)
deriving DecidableEq, Repr

/-- What `encoding/json` leaves in a `string` field that starts as `""`: an
absent or `null` member leaves it alone, a JSON string is stored, any other
value is a type error. -/
def decodeString : JSONMember → Option String
  | .absent => some ""
  | .null => some ""
  | .str s => some s
  | .other => none

/-- The call `c.ShouldBindJSON(&req)` for a `CreateNoteRequest`: decodes the
body into the struct, then checks the `binding:"required"` tags, which reject a
field left at its zero value `""`. `none` stands for a non-nil error. -/
def ShouldBindJSON : RequestBody → Option CreateNoteRequest
  | .malformed => none
  | .object title content =>
    match decodeString title, decodeString content with
    | some t, some c => if t ≠ "" ∧ c ≠ "" then some { Title := t, Content := c } else none
    | _, _ => none

/-- The JSON value a handler passes to `c.JSON`. -/
inductive ResponseBody where
  | error (e : ErrorResponse)
  | data (note : Note)
deriving DecidableEq, Repr

/-- The status code and the body a handler passes to `c.JSON`. -/
structure Response where
  status : Nat
  body : ResponseBody
deriving DecidableEq, Repr

/-- The constant `http.StatusBadRequest`. -/
def StatusBadRequest : Nat := 400

/-- The constant `http.StatusCreated`. -/
def StatusCreated : Nat := 201

/-- The handler `NotesHandler.CreateNote` over an `InMemoryNotesRepository`: answers 400
when binding fails and does not reach the repository; otherwise calls `Create`
and answers 201 with the note. -/
def CreateNote (r : InMemoryNotesRepository) (body : RequestBody) (uuid : String)
    (now : Time) : Response × InMemoryNotesRepository :=
  match ShouldBindJSON body with
  | none =>
    ({ status := StatusBadRequest,
       body := .error { Error := "validation_error",
                        Message := "Title and content are required" } }, r)
  | some req =>
    let created := Create r req uuid now
    ({ status := StatusCreated, body := .data created.1 }, created.2)

/-- A creation payload: a JSON object whose `title` and `content`, where it has
them, are strings. -/
structure CreatePayload where
  title : Option String
  content : Option String
deriving DecidableEq, Repr

/-- The member of a request body an optional string stands for. -/
def memberOf : Option String → JSONMember
  | none => .absent
  | some s => .str s

/-- The request body that carries a creation payload. -/
def CreatePayload.toBody (p : CreatePayload) : RequestBody :=
  .object (memberOf p.title) (memberOf p.content)

/-- A field of a payload is missing or empty. -/
def missingOrEmpty (f : Option String) : Prop :=
  f = none ∨ f = some ""

instance (f : Option String) : Decidable (missingOrEmpty f) := by
  unfold missingOrEmpty; infer_instance

/-- The note `Update` stores and returns when it finds `old` under the id. -/
def updatedNote (old : Note) (req : UpdateNoteRequest) (now : Time) : Note :=
  { ID := old.ID,
    Title := if req.Title ≠ "" then req.Title else old.Title,
    Content := if req.Content ≠ "" then req.Content else old.Content,
    CreatedAt := old.CreatedAt,
    UpdatedAt := now }

/-- A sequence of calls as in the handler tests: two notes are created, the
first gets a new title, the second is deleted, and an unknown id is asked for. -/
def sampleCalls : List Call :=
  [.Create ⟨"Original Title", "Original Content"⟩ "id-1" 3,
   .Create ⟨"Note to Delete", "This will be deleted"⟩ "id-2" 4,
   .Update "id-1" ⟨"Updated Title", ""⟩ 6,
   .GetAll,
   .Delete "id-2",
   .Delete "nonexistent-id",
   .GetByID "id-1"]

/-! ## Basic facts about the repository -/

theorem mem_GetAll_iff (r : InMemoryNotesRepository) (n : Note) :
    n ∈ GetAll r ↔ ∃ k, r.notes.lookup k = some n := by
  unfold GetAll
  constructor
  · intro h
    obtain ⟨e, he, rfl⟩ := List.mem_map.1 h
    exact ⟨e.1, AList.mem_lookup_iff.2 he⟩
  · rintro ⟨k, hk⟩
    exact List.mem_map.2 ⟨⟨k, n⟩, AList.mem_lookup_iff.1 hk, rfl⟩

theorem GetAll_length (r : InMemoryNotesRepository) :
    (GetAll r).length = r.notes.keys.length := by
  simp [GetAll, AList.keys, List.keys]

theorem lookup_Create (r : InMemoryNotesRepository) (req : CreateNoteRequest)
    (uuid : String) (now : Time) (k : String) :
    (Create r req uuid now).2.notes.lookup k =
      if k = uuid then some (Create r req uuid now).1 else r.notes.lookup k := by
  unfold Create
  by_cases h : k = uuid
  · subst h; simp [AList.lookup_insert]
  · simp [h, AList.lookup_insert_ne h]

theorem Update_of_lookup_none {r : InMemoryNotesRepository} {id : String}
    (h : r.notes.lookup id = none) (req : UpdateNoteRequest) (now : Time) :
    Update r id req now = (.error .ErrNoteNotFound, r) := by
  simp [Update, h]

theorem Update_of_lookup_some {r : InMemoryNotesRepository} {id : String} {old : Note}
    (h : r.notes.lookup id = some old) (req : UpdateNoteRequest) (now : Time) :
    Update r id req now =
      (.ok (updatedNote old req now), { notes := r.notes.insert id (updatedNote old req now) }) := by
  have : (let note := if req.Title ≠ "" then { old with Title := req.Title } else old
          let note := if req.Content ≠ "" then { note with Content := req.Content } else note
          ({ note with UpdatedAt := now } : Note)) = updatedNote old req now := by
    unfold updatedNote
    by_cases ht : req.Title = "" <;> by_cases hc : req.Content = "" <;> simp [ht, hc]
  simp only [Update, h]
  simp only at this
  rw [this]

theorem Delete_of_lookup_none {r : InMemoryNotesRepository} {id : String}
    (h : r.notes.lookup id = none) : Delete r id = (.error .ErrNoteNotFound, r) := by
  simp [Delete, h]

theorem Delete_of_lookup_some {r : InMemoryNotesRepository} {id : String} {old : Note}
    (h : r.notes.lookup id = some old) :
    Delete r id = (.ok (), { notes := r.notes.erase id }) := by
  simp [Delete, h]

theorem lookup_Update_of_some {r : InMemoryNotesRepository} {id : String} {old : Note}
    (h : r.notes.lookup id = some old) (req : UpdateNoteRequest) (now : Time) (k : String) :
    (Update r id req now).2.notes.lookup k =
      if k = id then some (updatedNote old req now) else r.notes.lookup k := by
  rw [Update_of_lookup_some h]
  by_cases hk : k = id
  · subst hk; simp [AList.lookup_insert]
  · simp [hk, AList.lookup_insert_ne hk]

theorem lookup_Delete_of_some {r : InMemoryNotesRepository} {id : String} {old : Note}
    (h : r.notes.lookup id = some old) (k : String) :
    (Delete r id).2.notes.lookup k = if k = id then none else r.notes.lookup k := by
  rw [Delete_of_lookup_some h]
  by_cases hk : k = id
  · subst hk; simp [AList.lookup_erase]
  · simp [hk, AList.lookup_erase_ne hk]

/-- Where a note stored after one call comes from: it was stored before, or it
is the note a `Create` built, or the note an `Update` rebuilt. -/
theorem lookup_step {r : InMemoryNotesRepository} {c : Call} {k : String} {n : Note}
    (h : (step r c).2.notes.lookup k = some n) :
    r.notes.lookup k = some n ∨
      (∃ req uuid now, c = .Create req uuid now ∧ n = (Create r req uuid now).1) ∨
      (∃ id req now old, c = .Update id req now ∧ r.notes.lookup id = some old ∧
        n = updatedNote old req now) := by
  cases c with
  | GetAll => exact Or.inl h
  | GetByID id => exact Or.inl h
  | Create req uuid now =>
    simp only [step] at h
    rw [lookup_Create] at h
    split at h
    · exact Or.inr (Or.inl ⟨req, uuid, now, rfl, (Option.some.inj h).symm⟩)
    · exact Or.inl h
  | Update id req now =>
    simp only [step] at h
    cases ho : r.notes.lookup id with
    | none => rw [Update_of_lookup_none ho] at h; exact Or.inl h
    | some old =>
      rw [lookup_Update_of_some ho] at h
      split at h
      · exact Or.inr (Or.inr ⟨id, req, now, old, rfl, ho, (Option.some.inj h).symm⟩)
      · exact Or.inl h
  | Delete id =>
    simp only [step] at h
    cases ho : r.notes.lookup id with
    | none => rw [Delete_of_lookup_none ho] at h; exact Or.inl h
    | some old =>
      rw [lookup_Delete_of_some ho] at h
      split at h
      · exact absurd h (by simp)
      · exact Or.inl h

/-- The title and content of a stored note are not both empty: kept by every
call, as long as a `Create` gets a request with both non-empty. -/
theorem run_keeps_some_text (cs : List Call) (r : InMemoryNotesRepository)
    (hValid : validCreates cs)
    (hr : ∀ k n, r.notes.lookup k = some n → ¬(n.Title = "" ∧ n.Content = "")) :
    ∀ k n, (run r cs).2.notes.lookup k = some n → ¬(n.Title = "" ∧ n.Content = "") := by
  induction cs generalizing r with
  | nil => exact hr
  | cons c cs ih =>
    have hcs : validCreates cs := by
      cases c <;> simp only [validCreates] at hValid <;> first | exact hValid | exact hValid.2.2
    refine ih (step r c).2 hcs ?_
    intro k n hk
    rcases lookup_step hk with h | ⟨req, uuid, now, rfl, rfl⟩ | ⟨id, req, now, old, rfl, ho, rfl⟩
    · exact hr k n h
    · simp only [validCreates] at hValid
      exact fun h => hValid.1 h.1
    · have hold := hr id old ho
      intro h
      apply hold
      by_cases ht : req.Title = "" <;> by_cases hc : req.Content = "" <;>
        simp_all [updatedNote]

/-- Timestamps under a clock that never runs backwards: every stored note was
created no later than it was last updated, and last updated no later than any
instant `fut` the clock shows after the calls. -/
theorem run_keeps_stamps (cs : List Call) (r : InMemoryNotesRepository) (fut : List Time)
    (hClock : (clockReadings r cs ++ fut).Pairwise (fun a b => a ≤ b))
    (hr : ∀ k n, r.notes.lookup k = some n →
      n.CreatedAt ≤ n.UpdatedAt ∧ ∀ t ∈ clockReadings r cs ++ fut, n.UpdatedAt ≤ t) :
    ∀ k n, (run r cs).2.notes.lookup k = some n →
      n.CreatedAt ≤ n.UpdatedAt ∧ ∀ t ∈ fut, n.UpdatedAt ≤ t := by
  induction cs generalizing r with
  | nil =>
    intro k n hk
    exact ⟨(hr k n hk).1, fun t ht => (hr k n hk).2 t (by simpa [clockReadings] using ht)⟩
  | cons c cs ih =>
    cases c with
    | GetAll => exact ih r hClock hr
    | GetByID id => exact ih r hClock hr
    | Create req uuid now =>
      simp only [clockReadings, List.cons_append, List.pairwise_cons] at hClock hr
      refine ih (Create r req uuid now).2 hClock.2 ?_
      intro k n hk
      rw [lookup_Create] at hk
      split at hk
      · cases Option.some.inj hk
        exact ⟨le_refl _, fun t ht => hClock.1 t ht⟩
      · exact ⟨(hr k n hk).1, fun t ht => (hr k n hk).2 t (List.mem_cons_of_mem _ ht)⟩
    | Delete id =>
      simp only [clockReadings] at hClock hr
      refine ih (Delete r id).2 hClock ?_
      intro k n hk
      cases ho : r.notes.lookup id with
      | none => rw [Delete_of_lookup_none ho] at hk; exact hr k n hk
      | some old =>
        rw [lookup_Delete_of_some ho] at hk
        split at hk
        · exact absurd hk (by simp)
        · exact hr k n hk
    | Update id req now =>
      cases ho : r.notes.lookup id with
      | none =>
        have hmem : id ∉ r.notes := AList.lookup_eq_none.1 ho
        simp only [clockReadings, if_neg hmem] at hClock hr
        refine ih (Update r id req now).2 hClock ?_
        intro k n hk
        rw [Update_of_lookup_none ho] at hk
        exact hr k n hk
      | some old =>
        have hmem : id ∈ r.notes := AList.lookup_isSome.1 (by simp [ho])
        simp only [clockReadings, if_pos hmem, List.cons_append, List.pairwise_cons]
          at hClock hr
        refine ih (Update r id req now).2 hClock.2 ?_
        intro k n hk
        rw [lookup_Update_of_some ho] at hk
        split at hk
        · cases Option.some.inj hk
          have hold := hr id old ho
          exact ⟨le_trans hold.1 (hold.2 now (List.mem_cons_self _ _)),
            fun t ht => hClock.1 t ht⟩
        · exact ⟨(hr k n hk).1, fun t ht => (hr k n hk).2 t (List.mem_cons_of_mem _ ht)⟩

theorem clockReadings_append (r : InMemoryNotesRepository) (cs cs' : List Call) :
    clockReadings r (cs ++ cs') = clockReadings r cs ++ clockReadings (run r cs).2 cs' := by
  induction cs generalizing r with
  | nil => rfl
  | cons c cs ih =>
    cases c with
    | GetAll => simpa [clockReadings, run, step] using ih r
    | GetByID id => simpa [clockReadings, run, step] using ih r
    | Create req uuid now => simpa [clockReadings, run, step] using ih _
    | Delete id => simpa [clockReadings, run, step] using ih _
    | Update id req now =>
      by_cases hmem : id ∈ r.notes
      · simpa [clockReadings, run, step, hmem] using ih _
      · simpa [clockReadings, run, step, hmem] using ih _

theorem GetAll_length_Create (r : InMemoryNotesRepository) (req : CreateNoteRequest)
    (uuid : String) (now : Time) (hFresh : uuid ∉ r.notes) :
    (GetAll (Create r req uuid now).2).length = (GetAll r).length + 1 := by
  rw [GetAll_length, GetAll_length]
  simp only [Create, AList.keys_insert, List.length_cons]
  rw [List.erase_of_not_mem (AList.mem_keys.not.1 hFresh)]

theorem GetAll_length_Update (r : InMemoryNotesRepository) (id : String)
    (req : UpdateNoteRequest) (now : Time) :
    (GetAll (Update r id req now).2).length = (GetAll r).length := by
  cases ho : r.notes.lookup id with
  | none => rw [Update_of_lookup_none ho]
  | some old =>
    have hmem : id ∈ r.notes.keys := AList.mem_keys.1 (AList.lookup_isSome.1 (by simp [ho]))
    rw [Update_of_lookup_some ho, GetAll_length, GetAll_length]
    simp only [AList.keys_insert, List.length_cons, List.length_erase_of_mem hmem]
    have := List.length_pos_of_mem hmem
    omega

theorem GetAll_length_Delete (r : InMemoryNotesRepository) (id : String) :
    (GetAll (Delete r id).2).length + (if id ∈ r.notes then 1 else 0) = (GetAll r).length := by
  cases ho : r.notes.lookup id with
  | none =>
    have hmem : id ∉ r.notes := AList.lookup_eq_none.1 ho
    rw [Delete_of_lookup_none ho, if_neg hmem]; rfl
  | some old =>
    have hmem : id ∈ r.notes := AList.lookup_isSome.1 (by simp [ho])
    have hkey : id ∈ r.notes.keys := AList.mem_keys.1 hmem
    rw [Delete_of_lookup_some ho, if_pos hmem, GetAll_length, GetAll_length]
    simp only [AList.keys_erase, List.length_erase_of_mem hkey]
    have := List.length_pos_of_mem hkey
    omega

theorem isDeleted_Delete (r : InMemoryNotesRepository) (id : String) :
    (Outcome.deleted (Delete r id).1).isDeleted = decide (id ∈ r.notes) := by
  cases ho : r.notes.lookup id with
  | none =>
    have hmem : id ∉ r.notes := AList.lookup_eq_none.1 ho
    simp [Delete_of_lookup_none ho, Outcome.isDeleted, hmem]
  | some old =>
    have hmem : id ∈ r.notes := AList.lookup_isSome.1 (by simp [ho])
    simp [Delete_of_lookup_some ho, Outcome.isDeleted, hmem]

/-- With identifiers that are new to the repository and never repeat, the notes
at the end plus the deletions that succeeded are the notes at the start plus
the `Create` calls. -/
theorem run_count (cs : List Call) (r : InMemoryNotesRepository)
    (hNodup : (generatedIDs cs).Nodup) (hFresh : ∀ k ∈ generatedIDs cs, k ∉ r.notes) :
    (GetAll (run r cs).2).length + succeededDeletes (run r cs).1 =
      (GetAll r).length + createCalls cs := by
  induction cs generalizing r with
  | nil => simp [run, succeededDeletes, createCalls]
  | cons c cs ih =>
    cases c with
    | GetAll =>
      have := ih r hNodup hFresh
      simpa [run, step, succeededDeletes, createCalls, Outcome.isDeleted] using this
    | GetByID id =>
      have := ih r hNodup hFresh
      simpa [run, step, succeededDeletes, createCalls, Outcome.isDeleted] using this
    | Create req uuid now =>
      simp only [generatedIDs, List.nodup_cons, List.mem_cons, forall_eq_or_imp]
        at hNodup hFresh
      have hlen := GetAll_length_Create r req uuid now hFresh.1
      have := ih (Create r req uuid now).2 hNodup.2 (by
        intro k hk hmem
        simp only [Create, AList.mem_insert] at hmem
        rcases hmem with rfl | hmem
        · exact hNodup.1 hk
        · exact hFresh.2 k hk hmem)
      simp only [run, step, succeededDeletes, createCalls, List.countP_cons, Outcome.isDeleted,
        Bool.false_eq_true, if_false] at this ⊢
      omega
    | Update id req now =>
      simp only [generatedIDs] at hNodup hFresh
      have hlen := GetAll_length_Update r id req now
      have := ih (Update r id req now).2 hNodup (by
        intro k hk hmem
        cases ho : r.notes.lookup id with
        | none => rw [Update_of_lookup_none ho] at hmem; exact hFresh k hk hmem
        | some old =>
          rw [Update_of_lookup_some ho] at hmem
          simp only [AList.mem_insert] at hmem
          rcases hmem with rfl | hmem
          · exact hFresh k hk (AList.lookup_isSome.1 (by simp [ho]))
          · exact hFresh k hk hmem)
      simp only [run, step, succeededDeletes, createCalls, List.countP_cons, Outcome.isDeleted,
        Bool.false_eq_true, if_false] at this ⊢
      omega
    | Delete id =>
      simp only [generatedIDs] at hNodup hFresh
      have hlen := GetAll_length_Delete r id
      have hdel := isDeleted_Delete r id
      have := ih (Delete r id).2 hNodup (by
        intro k hk hmem
        cases ho : r.notes.lookup id with
        | none => rw [Delete_of_lookup_none ho] at hmem; exact hFresh k hk hmem
        | some old =>
          rw [Delete_of_lookup_some ho] at hmem
          exact hFresh k hk (AList.mem_erase.1 hmem).2)
      simp only [run, step, succeededDeletes, createCalls, List.countP_cons] at this ⊢
      rw [hdel]
      by_cases hmem : id ∈ r.notes
      · simp only [hmem, if_true, decide_True] at hlen ⊢
        omega
      · simp only [hmem, if_false, decide_False] at hlen ⊢
        simp only [Bool.false_eq_true, if_false]
        omega

/-! ## The claims on single calls -/

/-- C1: for every repository state and every request with non-empty title and
content, `Create` followed by `GetByID` on the returned note's ID succeeds and
returns the note `Create` returned; that note has the request's title and
content, and its `CreatedAt` equals its `UpdatedAt`. -/
theorem create_then_getByID (r : InMemoryNotesRepository) (req : CreateNoteRequest)
    (uuid : String) (now : Time) (_hTitle : req.Title ≠ "") (_hContent : req.Content ≠ "") :
    GetByID (Create r req uuid now).2 (Create r req uuid now).1.ID
        = .ok (Create r req uuid now).1 ∧
      (Create r req uuid now).1.Title = req.Title ∧
      (Create r req uuid now).1.Content = req.Content ∧
      (Create r req uuid now).1.CreatedAt = (Create r req uuid now).1.UpdatedAt := by
  refine ⟨?_, rfl, rfl, rfl⟩
  have h := lookup_Create r req uuid now (Create r req uuid now).1.ID
  have hid : (Create r req uuid now).1.ID = uuid := rfl
  rw [if_pos hid] at h
  simp only [GetByID, h]

theorem create_then_getByID_witness :
    GetByID (Create NewInMemoryNotesRepository ⟨"Test Note", "Body"⟩ "id-1" 7).2
        (Create NewInMemoryNotesRepository ⟨"Test Note", "Body"⟩ "id-1" 7).1.ID
        = .ok (Create NewInMemoryNotesRepository ⟨"Test Note", "Body"⟩ "id-1" 7).1 ∧
      (Create NewInMemoryNotesRepository ⟨"Test Note", "Body"⟩ "id-1" 7).1.Title
        = "Test Note" ∧
      (Create NewInMemoryNotesRepository ⟨"Test Note", "Body"⟩ "id-1" 7).1.Content
        = "Body" ∧
      (Create NewInMemoryNotesRepository ⟨"Test Note", "Body"⟩ "id-1" 7).1.CreatedAt
        = (Create NewInMemoryNotesRepository ⟨"Test Note", "Body"⟩ "id-1" 7).1.UpdatedAt :=
  create_then_getByID NewInMemoryNotesRepository ⟨"Test Note", "Body"⟩ "id-1" 7
    (by decide) (by decide)

/-- C2: for every repository state and every id, each of `GetByID`, `Update`
(with any request) and `Delete` returns `ErrNoteNotFound` exactly when the id
is not a key of the map, and an `Update` or `Delete` that returns it leaves the
repository as it was (`GetByID` never writes). -/
theorem notFound_iff_absent (r : InMemoryNotesRepository) (id : String)
    (req : UpdateNoteRequest) (now : Time) :
    (GetByID r id = .error .ErrNoteNotFound ↔ id ∉ r.notes.keys) ∧
      ((Update r id req now).1 = .error .ErrNoteNotFound ↔ id ∉ r.notes.keys) ∧
      ((Delete r id).1 = .error .ErrNoteNotFound ↔ id ∉ r.notes.keys) ∧
      ((Update r id req now).1 = .error .ErrNoteNotFound → (Update r id req now).2 = r) ∧
      ((Delete r id).1 = .error .ErrNoteNotFound → (Delete r id).2 = r) := by
  rw [← AList.mem_keys, ← AList.lookup_eq_none]
  cases h : r.notes.lookup id with
  | none =>
    simp [GetByID, h, Update_of_lookup_none h, Delete_of_lookup_none h]
  | some old =>
    simp [GetByID, h, Update_of_lookup_some h, Delete_of_lookup_some h]

/-- C3: for every repository state, every id present in it and every update
request, `Update` succeeds, and the note it returns, which is the note stored
under the id afterwards, has the request's title if that is non-empty and the
previous title otherwise, and the request's content if that is non-empty and
the previous content otherwise; so a request with an empty content keeps the
content and a request with an empty title keeps the title. -/
theorem update_overwrites_nonempty (r : InMemoryNotesRepository) (id : String)
    (req : UpdateNoteRequest) (now : Time) (old : Note)
    (hPresent : r.notes.lookup id = some old) :
    ∃ note, (Update r id req now).1 = .ok note ∧
      (Update r id req now).2.notes.lookup id = some note ∧
      note.Title = (if req.Title ≠ "" then req.Title else old.Title) ∧
      note.Content = (if req.Content ≠ "" then req.Content else old.Content) ∧
      (req.Content = "" → note.Content = old.Content) ∧
      (req.Title = "" → note.Title = old.Title) := by
  refine ⟨updatedNote old req now, ?_, ?_, rfl, rfl, ?_, ?_⟩
  · rw [Update_of_lookup_some hPresent]
  · rw [Update_of_lookup_some hPresent]; exact AList.lookup_insert _
  · intro h; simp [updatedNote, h]
  · intro h; simp [updatedNote, h]

theorem update_overwrites_nonempty_witness :
    ∃ note,
      (Update (Create NewInMemoryNotesRepository ⟨"Original Title", "Original Content"⟩
          "id-1" 3).2 "id-1" ⟨"Updated Title", ""⟩ 9).1 = .ok note ∧
      (Update (Create NewInMemoryNotesRepository ⟨"Original Title", "Original Content"⟩
          "id-1" 3).2 "id-1" ⟨"Updated Title", ""⟩ 9).2.notes.lookup "id-1" = some note ∧
      note.Title = "Updated Title" ∧ note.Content = "Original Content" := by
  obtain ⟨note, h1, h2, h3, h4, -, -⟩ :=
    update_overwrites_nonempty
      (Create NewInMemoryNotesRepository ⟨"Original Title", "Original Content"⟩ "id-1" 3).2
      "id-1" ⟨"Updated Title", ""⟩ 9
      ⟨"id-1", "Original Title", "Original Content", 3, 3⟩ (by decide)
  exact ⟨note, h1, h2, by simpa using h3, by simpa using h4⟩

/-- C5: for every repository state and every id present in it, `Delete`
succeeds and removes exactly that note: `GetByID` on the id afterwards returns
`ErrNoteNotFound`, and every other id is mapped as before. -/
theorem delete_removes_exactly (r : InMemoryNotesRepository) (id : String)
    (hPresent : id ∈ r.notes.keys) :
    (Delete r id).1 = .ok () ∧
      GetByID (Delete r id).2 id = .error .ErrNoteNotFound ∧
      ∀ k, k ≠ id → (Delete r id).2.notes.lookup k = r.notes.lookup k := by
  rw [← AList.mem_keys, ← AList.lookup_isSome, Option.isSome_iff_exists] at hPresent
  obtain ⟨old, h⟩ := hPresent
  rw [Delete_of_lookup_some h]
  refine ⟨rfl, ?_, fun k hk => AList.lookup_erase_ne hk⟩
  simp [GetByID, AList.lookup_erase]

theorem delete_removes_exactly_witness :
    (Delete (Create NewInMemoryNotesRepository ⟨"Note to Delete", "This will be deleted"⟩
        "id-1" 3).2 "id-1").1 = .ok () ∧
      GetByID (Delete (Create NewInMemoryNotesRepository
        ⟨"Note to Delete", "This will be deleted"⟩ "id-1" 3).2 "id-1").2 "id-1"
        = .error .ErrNoteNotFound ∧
      ∀ k, k ≠ "id-1" →
        (Delete (Create NewInMemoryNotesRepository ⟨"Note to Delete", "This will be deleted"⟩
          "id-1" 3).2 "id-1").2.notes.lookup k =
        (Create NewInMemoryNotesRepository ⟨"Note to Delete", "This will be deleted"⟩
          "id-1" 3).2.notes.lookup k :=
  delete_removes_exactly
    (Create NewInMemoryNotesRepository ⟨"Note to Delete", "This will be deleted"⟩ "id-1" 3).2
    "id-1" (by decide)

/-- C4: for every repository state and every creation payload, `CreateNote`
answers 400 with the error code `validation_error` and leaves the repository
unchanged when the payload's title is missing or empty or its content is
missing or empty; otherwise it answers 201 with the note `Create` made, whose
title and content are those of the payload. -/
theorem createNote_validates (r : InMemoryNotesRepository) (p : CreatePayload)
    (uuid : String) (now : Time) :
    (missingOrEmpty p.title ∨ missingOrEmpty p.content →
        CreateNote r p.toBody uuid now =
          ({ status := 400,
             body := .error { Error := "validation_error",
                              Message := "Title and content are required" } }, r)) ∧
      (¬(missingOrEmpty p.title ∨ missingOrEmpty p.content) →
        ∃ t c, p.title = some t ∧ p.content = some c ∧
          CreateNote r p.toBody uuid now =
            ({ status := 201, body := .data (Create r ⟨t, c⟩ uuid now).1 },
              (Create r ⟨t, c⟩ uuid now).2) ∧
          (Create r ⟨t, c⟩ uuid now).1.Title = t ∧
          (Create r ⟨t, c⟩ uuid now).1.Content = c) := by
  obtain ⟨title, content⟩ := p
  rcases title with _ | t <;> rcases content with _ | c
  · simp [missingOrEmpty, CreateNote, CreatePayload.toBody, memberOf, ShouldBindJSON,
      decodeString, StatusBadRequest]
  · simp [missingOrEmpty, CreateNote, CreatePayload.toBody, memberOf, ShouldBindJSON,
      decodeString, StatusBadRequest]
  · simp [missingOrEmpty, CreateNote, CreatePayload.toBody, memberOf, ShouldBindJSON,
      decodeString, StatusBadRequest]
  · by_cases ht : t = "" <;> by_cases hc : c = "" <;>
      simp [missingOrEmpty, CreateNote, CreatePayload.toBody, memberOf, ShouldBindJSON,
        decodeString, StatusBadRequest, StatusCreated, ht, hc, Create]

/-! ## The claims on sequences of calls -/

/-- C6: for every finite sequence of `Create`, `Update`, `Delete`, `GetByID`
and `GetAll` calls on a newly constructed repository, in which
`uuid.New().String()` never returned the same identifier twice, the number of
notes `GetAll` returns at the end is the number of `Create` calls minus the
number of `Delete` calls that succeeded (which is never the larger one); on a
new repository `GetAll` returns no note. -/
theorem getAll_count (cs : List Call) (hFresh : (generatedIDs cs).Nodup) :
    (GetAll (run NewInMemoryNotesRepository cs).2).length =
        createCalls cs - succeededDeletes (run NewInMemoryNotesRepository cs).1 ∧
      succeededDeletes (run NewInMemoryNotesRepository cs).1 ≤ createCalls cs ∧
      (GetAll (run NewInMemoryNotesRepository []).2).length = 0 := by
  have h := run_count cs NewInMemoryNotesRepository hFresh
    (fun k _ => AList.not_mem_empty k)
  have h0 : (GetAll NewInMemoryNotesRepository).length = 0 := rfl
  rw [h0] at h
  refine ⟨by omega, by omega, rfl⟩

theorem getAll_count_witness :
    (generatedIDs sampleCalls).Nodup ∧
      (GetAll (run NewInMemoryNotesRepository sampleCalls).2).length = 1 ∧
      createCalls sampleCalls = 2 ∧
      succeededDeletes (run NewInMemoryNotesRepository sampleCalls).1 = 1 := by
  have h := getAll_count sampleCalls (by decide)
  have hc : createCalls sampleCalls = 2 := by decide
  have hd : succeededDeletes (run NewInMemoryNotesRepository sampleCalls).1 = 1 := by decide
  rw [hc, hd] at h
  exact ⟨by decide, h.1, hc, hd⟩

/-- C7: in every repository state reached from a new repository by `Create`
calls whose title and content are both non-empty and by arbitrary `Update` and
`Delete` calls (and reads), no stored note has both an empty title and an empty
content. -/
theorem title_content_not_both_empty (cs : List Call) (hValid : validCreates cs) :
    ∀ n ∈ GetAll (run NewInMemoryNotesRepository cs).2, ¬(n.Title = "" ∧ n.Content = "") := by
  intro n hn
  obtain ⟨k, hk⟩ := (mem_GetAll_iff _ n).1 hn
  refine run_keeps_some_text cs NewInMemoryNotesRepository hValid ?_ k n hk
  intro k n h
  simp [NewInMemoryNotesRepository, AList.lookup_empty] at h

theorem title_content_not_both_empty_witness :
    validCreates sampleCalls ∧
      ∀ n ∈ GetAll (run NewInMemoryNotesRepository sampleCalls).2,
        ¬(n.Title = "" ∧ n.Content = "") :=
  ⟨by simp [sampleCalls, validCreates],
    title_content_not_both_empty sampleCalls (by simp [sampleCalls, validCreates])⟩

/-- C8: in every repository state reached from a new repository by a sequence
of `Create`, `Update` and `Delete` calls (and reads) during which `time.Now()`
never returned an earlier instant than before, every stored note has
`CreatedAt ≤ UpdatedAt`. -/
theorem createdAt_le_updatedAt (cs : List Call)
    (hClock : (clockReadings NewInMemoryNotesRepository cs).Pairwise (fun a b => a ≤ b)) :
    ∀ n ∈ GetAll (run NewInMemoryNotesRepository cs).2, n.CreatedAt ≤ n.UpdatedAt := by
  intro n hn
  obtain ⟨k, hk⟩ := (mem_GetAll_iff _ n).1 hn
  refine (run_keeps_stamps cs NewInMemoryNotesRepository [] (by simpa using hClock) ?_ k n hk).1
  intro k n h
  simp [NewInMemoryNotesRepository, AList.lookup_empty] at h

theorem createdAt_le_updatedAt_witness :
    (clockReadings NewInMemoryNotesRepository sampleCalls).Pairwise (fun a b => a ≤ b) ∧
      ∀ n ∈ GetAll (run NewInMemoryNotesRepository sampleCalls).2,
        n.CreatedAt ≤ n.UpdatedAt :=
  ⟨by decide, createdAt_le_updatedAt sampleCalls (by decide)⟩

/-- C9: in every repository state reached from a new repository by a sequence
of calls, for every id present in it and every update request (one with empty
title and content too), `Update` succeeds and sets the note's `UpdatedAt` to
the current instant; when `time.Now()` never returned an earlier instant than
before, up to and including this call, the new `UpdatedAt` is greater than or
equal to the one the note had before the call. -/
theorem update_refreshes_updatedAt (cs : List Call) (id : String) (req : UpdateNoteRequest)
    (now : Time) (old : Note)
    (hClock : (clockReadings NewInMemoryNotesRepository
      (cs ++ [.Update id req now])).Pairwise (fun a b => a ≤ b))
    (hPresent : (run NewInMemoryNotesRepository cs).2.notes.lookup id = some old) :
    ∃ note, (Update (run NewInMemoryNotesRepository cs).2 id req now).1 = .ok note ∧
      (Update (run NewInMemoryNotesRepository cs).2 id req now).2.notes.lookup id
        = some note ∧
      note.UpdatedAt = now ∧ old.UpdatedAt ≤ note.UpdatedAt := by
  have hmem : id ∈ (run NewInMemoryNotesRepository cs).2.notes :=
    AList.lookup_isSome.1 (by simp [hPresent])
  rw [clockReadings_append] at hClock
  simp only [clockReadings, if_pos hmem] at hClock
  have hinv := run_keeps_stamps cs NewInMemoryNotesRepository [now] hClock (by
    intro k n h
    simp [NewInMemoryNotesRepository, AList.lookup_empty] at h) id old hPresent
  refine ⟨updatedNote old req now, ?_, ?_, rfl, hinv.2 now (List.mem_singleton_self _)⟩
  · rw [Update_of_lookup_some hPresent]
  · rw [lookup_Update_of_some hPresent, if_pos rfl]

theorem update_refreshes_updatedAt_witness :
    ∃ note, (Update (run NewInMemoryNotesRepository sampleCalls).2 "id-1" ⟨"", ""⟩ 8).1
        = .ok note ∧
      (Update (run NewInMemoryNotesRepository sampleCalls).2 "id-1" ⟨"", ""⟩ 8).2.notes.lookup
        "id-1" = some note ∧
      note.UpdatedAt = 8 ∧ (6 : Time) ≤ note.UpdatedAt :=
  update_refreshes_updatedAt sampleCalls "id-1" ⟨"", ""⟩ 8
    ⟨"id-1", "Updated Title", "Original Content", 3, 6⟩ (by decide) (by decide)

/-! ## Remarks on the handler and on the environment -/

/-- A body that is no JSON object, or whose `title` or `content` is of another
JSON type than string, is answered 400 as well and does not reach the
repository. -/
theorem createNote_rejects_undecodable (r : InMemoryNotesRepository) (m : JSONMember)
    (uuid : String) (now : Time) :
    (CreateNote r .malformed uuid now).1.status = 400 ∧
      (CreateNote r .malformed uuid now).2 = r ∧
      (CreateNote r (.object .other m) uuid now).1.status = 400 ∧
      (CreateNote r (.object .other m) uuid now).2 = r ∧
      (CreateNote r (.object m .other) uuid now).1.status = 400 ∧
      (CreateNote r (.object m .other) uuid now).2 = r := by
  cases m <;> simp [CreateNote, ShouldBindJSON, decodeString, StatusBadRequest]

/-- The count of notes rests on identifiers that never repeat: `Create` does not
look the identifier up before it stores under it, so a repeated identifier
would replace the earlier note. -/
theorem create_same_id_replaces :
    (GetAll (run NewInMemoryNotesRepository
      [.Create ⟨"a", "b"⟩ "id-1" 1, .Create ⟨"c", "d"⟩ "id-1" 2]).2).length = 1 := by
  decide

/-- The order of the two timestamps rests on a clock that never runs backwards:
`Update` stores the instant it reads without comparing it with the note. -/
theorem update_stores_the_reading :
    GetAll (run NewInMemoryNotesRepository
      [.Create ⟨"a", "b"⟩ "id-1" 5, .Update "id-1" ⟨"", ""⟩ 2]).2 =
      [{ ID := "id-1", Title := "a", Content := "b", CreatedAt := 5, UpdatedAt := 2 }] := by
  decide

end SecureNotes
